import Mathlib

/-!
Shallow embedding of the node-adapter layer of the ComfyUI-sonar module
(`py/nodes.py`) together with theorems checking the natural-language
specification against it.  Pure fragments of the Python code are translated
into executable Lean functions; the process-wide RNG state and the mutable
chain objects are made explicit (state passing / an explicit heap).  Pieces
of the repository that are not part of the provided source (the `noise`
module's chain class and sampler builders) are modelled from the spec and
marked as such in their doc comments.
-/

namespace Sonar

/-! Section: Custom noise chains (spec-modelled) and `SonarCustomNoiseNodeBase.go` -/

/-- A custom noise item.  Only the weighting `factor` matters for the claims
considered here; the remaining constructor parameters of the Python classes
are collapsed into an opaque `payload`. -/
structure NoiseItem where
  factor : ℚ
  payload : Nat
deriving DecidableEq, Repr

/-- Modelled from the spec: `CustomNoiseChain` (class in the absent
`noise` module) is an ordered list of weighted items. -/
abbrev CustomNoiseChain := List NoiseItem

/-- Modelled from the spec: the sum of the factors of a chain's items. -/
def chainFactorSum (c : CustomNoiseChain) : ℚ :=
  (List.map NoiseItem.factor c).sum

/-- Modelled from the spec: `CustomNoiseChain.rescaled(target)` returns a new
chain whose factors are proportionally scaled so that they sum to `target`
(rescaling leaves the item count unchanged). -/
def rescaled (c : CustomNoiseChain) (target : ℚ) : CustomNoiseChain :=
  List.map (fun it => { it with factor := it.factor * (target / chainFactorSum c) }) c

/-- Modelled from the spec: `CustomNoiseChain.add` appends one item. -/
def chainAdd (c : CustomNoiseChain) (it : NoiseItem) : CustomNoiseChain :=
  c ++ [it]

/-- Modelled from the spec: `CustomNoiseChain.clone()` deep-copies the list so
prior references are unaffected (value copy in this embedding). -/
def chainClone (c : CustomNoiseChain) : CustomNoiseChain := c

/-- Value-level view of `SonarCustomNoiseNodeBase.go` (nodes.py lines 231-245):
clone the connected chain (or start a fresh one), append a new item built
from `factor` unless `factor == 0`, and finally rescale unless `rescale == 0`.
`mkItem` stands for `self.get_item_class()(factor, **kwargs)`. -/
def sonarCustomNoiseGo (factor rescale : ℚ) (chainOpt : Option CustomNoiseChain)
    (mkItem : ℚ → NoiseItem) : CustomNoiseChain :=
  let nis : CustomNoiseChain :=
    match chainOpt with
    | some c => chainClone c
    | none => []
  let nis := if factor ≠ 0 then chainAdd nis (mkItem factor) else nis
  if rescale = 0 then nis else rescaled nis rescale

/-! Section: `SonarCompositeNoiseNode.go` -/

/-- Embeds `SonarNormalizeNoiseNodeMixin.get_normalize` (nodes.py lines 267-270):
`"default"` maps to `none`, anything else to whether it equals `"forced"`. -/
def get_normalize (val : String) : Option Bool :=
  if val = "default" then none else some (val = "forced")

/-- The keyword arguments `SonarCompositeNoiseNode.go` hands to the
`CompositeNoise` item constructor. -/
structure CompositeNoiseArgs where
  dst_noise : Nat
  src_noise : Nat
  normalize_dst : Option Bool
  normalize_src : Option Bool
  normalize_result : Option Bool
  mask : Nat
deriving DecidableEq, Repr

/-- Embeds `SonarCompositeNoiseNode.go` (nodes.py lines 572-591): builds the keyword
arguments for the `CompositeNoise` item.  Note that the source passes
`normalize_dst=self.get_normalize(normalize_src)` and
`normalize_src=self.get_normalize(normalize_dst)` — the embedding reproduces
that wiring exactly.  Argument order follows the Python keyword-only
signature: `sonar_custom_noise_dst`, `sonar_custom_noise_src`,
`normalize_src`, `normalize_dst`, `normalize_result`, `mask`. -/
def sonarCompositeNoiseGoArgs (sonar_custom_noise_dst sonar_custom_noise_src : Nat)
    (normalize_src normalize_dst normalize_result : String) (mask : Nat) :
    CompositeNoiseArgs :=
  { dst_noise := sonar_custom_noise_dst
    src_noise := sonar_custom_noise_src
    normalize_dst := get_normalize normalize_src
    normalize_src := get_normalize normalize_dst
    normalize_result := get_normalize normalize_result
    mask := mask }

/-! Section: `SonarCustomNoiseNodeBase.go` with explicit object identity -/

/-- A store of chain objects: Python object identity made explicit.  A chain
reference is an index into the store. -/
abbrev ChainHeap := List CustomNoiseChain

/-- Heap-level view of `SonarCustomNoiseNodeBase.go` (nodes.py lines 231-245) over an explicit
heap of chain objects: `clone()` allocates a fresh cell holding a copy of the
connected chain's contents (or an empty fresh chain when none is connected),
`add` mutates only that fresh cell, and `rescaled` allocates yet another new
chain.  Returns the updated heap and the reference to the returned chain. -/
def sonarCustomNoiseGoHeap (heap : ChainHeap) (inputRef : Option Nat)
    (factor rescale : ℚ) (mkItem : ℚ → NoiseItem) : ChainHeap × Nat :=
  let contents : CustomNoiseChain :=
    match inputRef with
    | some r => heap.getD r []
    | none => []
  let heap1 := heap ++ [contents]
  let ref1 := heap.length
  let heap2 :=
    if factor ≠ 0 then heap1.set ref1 (chainAdd contents (mkItem factor)) else heap1
  if rescale = 0 then (heap2, ref1)
  else (heap2 ++ [rescaled (heap2.getD ref1 []) rescale], heap2.length)

/-! Section: Node registration table (nodes.py lines 1394-1642) -/

/-- The unconditional part of `NODE_CLASS_MAPPINGS` (nodes.py lines
1394-1409), as the list of registered node identifiers. -/
def baseNodeClassMappings : List String :=
  ["SamplerSonarEuler", "SamplerSonarEulerA", "SamplerSonarDPMPPSDE",
   "SonarGuidanceConfig", "SamplerConfigOverride", "NoisyLatentLike",
   "SonarCustomNoise", "SonarCompositeNoise", "SonarModulatedNoise",
   "SonarRepeatedNoise", "SonarScheduledNoise", "SonarGuidedNoise",
   "SonarRandomNoise", "SONAR_CUSTOM_NOISE to NOISE"]

/-- The full registration table after the conditional blocks at module load
(nodes.py lines 1414-1642): `SonarBlendFilterNoise` is added when the `bleh`
sibling plugin is available, `KRestartSamplerCustomNoise` when `restart` is
available, and `RestartSamplerCustomNoise` additionally requires
`hasattr(rs.restart_sampling, "RestartSampler")`. -/
def nodeClassMappings (blehAvail restartAvail restartHasWrapper : Bool) :
    List String :=
  baseNodeClassMappings
    ++ (if blehAvail then ["SonarBlendFilterNoise"] else [])
    ++ (if restartAvail then
          ["KRestartSamplerCustomNoise"]
            ++ (if restartHasWrapper then ["RestartSamplerCustomNoise"] else [])
        else [])

/-! Section: `CustomNOISE.generate_noise` (nodes.py lines 733-792) -/

/-- Tensor placement device. -/
inductive Device where
  | cpu
  | gpu
deriving DecidableEq, Repr

/-- A coarse tensor model: shape (dim 0 is the batch), dtype and layout as
codes, placement device and flattened contents. -/
structure Tensor where
  shape : List Nat
  dtype : Nat
  layout : Nat
  device : Device
  data : List Int
deriving DecidableEq, Repr

/-- Embeds `torch.zeros(shape, dtype=…, layout=…, device=…)`. -/
def Tensor.zeros (shape : List Nat) (dtype layout : Nat) (device : Device) : Tensor :=
  { shape := shape, dtype := dtype, layout := layout, device := device
    data := List.replicate shape.prod 0 }

/-- Embeds `latent_image[i].unsqueeze(0)`: the `i`-th batch element as a batch of
one. -/
def Tensor.selectBatch (t : Tensor) (i : Nat) : Tensor :=
  let rest := t.shape.tail
  let rowLen := rest.prod
  { shape := 1 :: rest, dtype := t.dtype, layout := t.layout, device := t.device
    data := (t.data.drop (i * rowLen)).take rowLen }

/-- Embeds `torch.cat(parts, axis=0)`: concatenation along the batch dimension. -/
def Tensor.cat (parts : List Tensor) : Tensor :=
  match parts with
  | [] => { shape := [], dtype := 0, layout := 0, device := .cpu, data := [] }
  | p :: _ =>
      { shape := (parts.map (fun t => t.shape.headD 0)).sum :: p.shape.tail
        dtype := p.dtype, layout := p.layout, device := p.device
        data := (parts.map Tensor.data).flatten }

/-- The two process-wide RNG states: the tensor RNG (`torch`) and the
general-purpose RNG (Python's `random`). -/
structure GNState (σt σp : Type) where
  torch : σt
  py : σp
deriving Repr

/-- Outcome of `CustomNOISE.generate_noise`: the produced tensor, the tuple
of per-position tensors handed to `torch.cat` in the batch-index path (empty
in the other paths), the number of noise-sampling calls performed, and the
RNG states when the call returns. -/
structure GNResult (σt σp : Type) where
  output : Tensor
  parts : List Tensor
  sampleCalls : Nat
  state : GNState σt σp
deriving Repr

/-- Embeds `latent_image.shape[0]` (nodes.py line 784). -/
def gnBatchSize (latent : Tensor) : Nat := latent.shape.headD 0

/-- Embeds `unique_inds[-1]`: the largest batch index present (`np.unique` returns a
sorted array; indices are nonnegative here). -/
def gnMaxInd (inds : List Nat) : Nat := inds.foldr max 0

/-- Embeds `np.unique(batch_inds)`: the distinct indices in ascending order,
realized as the members of `0 … max` that occur in the list. -/
def gnUnique (inds : List Nat) : List Nat :=
  (List.range (gnMaxInd inds + 1)).filter (· ∈ inds)

/-- One iteration's noise draw (nodes.py lines 786-789):
`self._sample_noise(latent_image[idx % batch_size].unsqueeze(0), self.seed + idx)`. -/
def gnDraw (sample : Tensor → Nat → Tensor) (latent : Tensor) (seed idx : Nat) : Tensor :=
  sample (latent.selectBatch (idx % gnBatchSize latent)) (seed + idx)

/-- The `result` list built by the loop of nodes.py lines 785-791: iterate
`idx` over `0 … max`, draw noise each time, and append the draw only when
`idx` occurs among the unique indices. -/
def gnResultList (sample : Tensor → Nat → Tensor) (latent : Tensor) (seed : Nat)
    (inds : List Nat) : List Tensor :=
  (List.range (gnMaxInd inds + 1)).filterMap
    (fun idx => if idx ∈ gnUnique inds then some (gnDraw sample latent seed idx) else none)

/-- Embeds `tuple(result[i] for i in inverse_inds)` (nodes.py line 792), where
`inverse_inds` maps each batch position to the rank of its batch index in the
sorted unique indices (the `return_inverse` output of `np.unique`). -/
def gnParts (sample : Tensor → Nat → Tensor) (latent : Tensor) (seed : Nat)
    (inds : List Nat) : List Tensor :=
  (inds.map (fun b => (gnUnique inds).indexOf b)).map
    (fun i => (gnResultList sample latent seed inds).getD i (Tensor.zeros [] 0 0 .cpu))

/-- Embeds `CustomNOISE.generate_noise` (nodes.py lines 768-792) with the RNG states
explicit.  `sample` stands for `self._sample_noise` (nodes.py lines 749-766),
modelled from the spec: its body delegates to the absent `noise` module's
`make_noise_sampler`, drawing one noise tensor deterministically from the
reference tensor and the explicit seed.  Both RNGs are reseeded from `seed`
(lines 771-772) before the zero-multiplier short-circuit (lines 773-779). -/
def generateNoise {σt σp : Type} (sample : Tensor → Nat → Tensor)
    (manualSeedT : Nat → σt) (seedP : Nat → σp) (latent : Tensor)
    (batchInds : Option (List Nat)) (seed : Nat) (multiplier : ℚ) :
    GNResult σt σp :=
  let st : GNState σt σp := { torch := manualSeedT seed, py := seedP seed }
  if multiplier = 0 then
    { output := Tensor.zeros latent.shape latent.dtype latent.layout .cpu
      parts := [], sampleCalls := 0, state := st }
  else
    match batchInds with
    | none =>
        { output := sample latent seed, parts := [], sampleCalls := 1, state := st }
    | some inds =>
        let parts := gnParts sample latent seed inds
        { output := Tensor.cat parts, parts := parts
          sampleCalls := gnMaxInd inds + 1, state := st }

/-! Section: `SamplerNodeConfigOverride.sampler_function` (nodes.py lines 1203-1391) -/

/-- Embeds `SamplerNodeConfigOverride.KWARG_OVERRIDES` (nodes.py line 1205). -/
def KWARG_OVERRIDES : List String := ["s_noise", "eta", "s_churn", "r", "solver_type"]

/-- Keyword-argument dictionaries as partial maps from parameter names. -/
abbrev Kwargs (V : Type) := String → Option V

/-- Embeds the assignment `kwargs[k] = v`. -/
def setKwarg {V : Type} (kw : Kwargs V) (k : String) (v : V) : Kwargs V :=
  fun x => if x = k then some v else kw x

/-- One iteration of the override loop (nodes.py lines 1380-1383): `k` is
skipped when the wrapped step function does not declare it or the configured
value is absent, else the configured value is assigned. -/
def overrideStep {V : Type} (params : List String) (cfg : Kwargs V)
    (acc : Kwargs V) (k : String) : Kwargs V :=
  match cfg k with
  | none => acc
  | some v => if k ∈ params then setKwarg acc k v else acc

/-- nodes.py lines 1375-1383: inspect the wrapped step function's declared
parameters, substitute the noise-sampler callback when it accepts one, then
apply exactly the overrides of `KWARG_OVERRIDES` that it declares. -/
def samplerFunctionKwargs {V : Type} (params : List String) (cfg : Kwargs V)
    (noiseSampler : V) (kwargs : Kwargs V) : Kwargs V :=
  let kw1 :=
    if "noise_sampler" ∈ params then setKwarg kwargs "noise_sampler" noiseSampler
    else kwargs
  KWARG_OVERRIDES.foldl (overrideStep params cfg) kw1

/-! Section: `NoisyLatentLikeNode.go` (nodes.py lines 106-174) -/

/-- Errors raised by `NoisyLatentLikeNode.go`: the explicit `ValueError` for
sigmas connected without a model (nodes.py lines 122-125), and any exception
propagating out of noise generation inside the `try` block. -/
inductive NLLErr where
  | invalidConfig
  | noiseFailure
deriving DecidableEq, Repr

/-- The sigma-derived values handed to the noise sampler: `sigma_min`,
`sigma_max` at construction and the `(sigma, sigma_next)` pair at each call
(nodes.py lines 139-143). -/
structure SigmaInfo where
  sigmaMin : Option ℚ
  sigmaMax : Option ℚ
  sigma : Option ℚ
  sigmaNext : Option ℚ
deriving DecidableEq, Repr

/-- nodes.py lines 139-143: sigma bounds are populated only when sigmas are
connected and hold more than one element, else all four are absent. -/
def nllSigmaInfo (sigmasOpt : Option (List ℚ)) : SigmaInfo :=
  match sigmasOpt with
  | some s =>
      if 1 < s.length then ⟨s.head?, s.getLast?, s.head?, s[1]?⟩
      else ⟨none, none, none, none⟩
  | none => ⟨none, none, none, none⟩

/-- The outcome of `NoisyLatentLikeNode.go`: the returned value (the drawn
noise batches, the resolved multiplier later passed to `scale_noise`, and the
sigma values the noise sampler was built with) or an error, together with the
process-wide tensor RNG state when the call finishes. -/
structure NLLOut (σ Noise : Type) where
  result : Except NLLErr (List Noise × ℚ × SigmaInfo)
  rng : σ
deriving Repr

/-- Draw `n` noise samples in sequence against the explicit RNG state,
modelling `tuple(ns(sigma, sigma_next) for _ in range(repeat_batch))`
(nodes.py lines 163-166); `none` models an exception escaping a draw. -/
def drawRepeat {σ Noise : Type} (draw : SigmaInfo → σ → Option (Noise × σ))
    (info : SigmaInfo) : Nat → σ → Option (List Noise × σ)
  | 0, st => some ([], st)
  | n + 1, st =>
      match draw info st with
      | none => none
      | some (x, st') =>
          match drawRepeat draw info n st' with
          | none => none
          | some (xs, st'') => some (x :: xs, st'')

/-- Embeds `NoisyLatentLikeNode.go` (nodes.py lines 106-174) with the process-wide
tensor RNG made an explicit state `rng : σ`.  `sigmaScale s` stands for the
float `(sqrt(1 + s[0]^2) if max_denoise else s[0]) / latent_scale_factor`
computed on lines 128-138; `manualSeed` models `torch.random.manual_seed` and
`draw` one call of the noise sampler (modelled from the spec: building the
noise sampler, which happens before the RNG state is saved, takes an explicit
seed and does not touch the process-wide RNG).  The `try`/`finally` of lines
161-168 restores the saved state on both the normal and the exceptional
path. -/
def noisyLatentLikeGo {σ Noise : Type}
    (sigmasOpt : Option (List ℚ)) (modelConnected : Bool)
    (sigmaScale : List ℚ → ℚ) (multiplier : ℚ) (seed : Nat) (repeatBatch : Nat)
    (rng : σ) (manualSeed : Nat → σ)
    (draw : SigmaInfo → σ → Option (Noise × σ)) : NLLOut σ Noise :=
  let sigmasNonEmpty : Bool :=
    match sigmasOpt with
    | some s => decide (0 < s.length)
    | none => false
  if sigmasNonEmpty && !modelConnected then
    { result := .error .invalidConfig, rng := rng }
  else
    let mult := if sigmasNonEmpty then multiplier * sigmaScale (sigmasOpt.getD []) else multiplier
    let info := nllSigmaInfo sigmasOpt
    let randst := rng
    let rng1 := manualSeed seed
    match drawRepeat draw info repeatBatch rng1 with
    | some (results, _) => { result := .ok (results, mult, info), rng := randst }
    | none => { result := .error .noiseFailure, rng := randst }

/-- A concrete two-example reference latent used to evaluate the embedding on
the spec's `[0, 0, 1]` batch-index example. -/
def gwLatent : Tensor :=
  { shape := [2, 1], dtype := 0, layout := 0, device := .cpu, data := [5, 9] }

/-- A concrete noise-drawing function (records the seed in front of the
reference data) used to evaluate the embedding on concrete inputs. -/
def gwSample (t : Tensor) (s : Nat) : Tensor :=
  { shape := t.shape, dtype := t.dtype, layout := t.layout, device := t.device
    data := (s : Int) :: t.data }

end Sonar

/-! Section: Theorems -/

open Sonar

/-- Every member of a list of naturals is at most its running maximum. -/
theorem le_foldr_max {l : List Nat} {x : Nat} (h : x ∈ l) : x ≤ l.foldr max 0 := by
  induction l with
  | nil => cases h
  | cons a l ih =>
      rcases List.mem_cons.mp h with rfl | h'
      · exact le_max_left _ _
      · exact le_trans (ih h') (le_max_right _ _)

/-- Indices occurring in the metadata occur among the unique indices. -/
theorem mem_gnUnique {inds : List Nat} {x : Nat} (h : x ∈ inds) : x ∈ gnUnique inds := by
  refine List.mem_filter.mpr ⟨List.mem_range.mpr ?_, by simpa using h⟩
  exact Nat.lt_succ_of_le (le_foldr_max h)

/-- A `filterMap` with a membership guard is a `map` over the filtered list. -/
theorem filterMap_ite_mem {α : Type} (l u : List Nat) (g : Nat → α) :
    (l.filterMap fun x => if x ∈ u then some (g x) else none)
      = (l.filter (· ∈ u)).map g := by
  induction l with
  | nil => rfl
  | cons a l ih =>
      by_cases ha : a ∈ u <;>
        simp [List.filterMap_cons, List.filter_cons, ha, ih]

/-- The loop's `result` list is exactly the draws for the unique indices, in
ascending order. -/
theorem gnResultList_eq_map (sample : Tensor → Nat → Tensor) (latent : Tensor)
    (seed : Nat) (inds : List Nat) :
    gnResultList sample latent seed inds
      = (gnUnique inds).map (gnDraw sample latent seed) := by
  have hfilter : (List.range (gnMaxInd inds + 1)).filter (· ∈ gnUnique inds)
      = gnUnique inds := by
    show (List.range (gnMaxInd inds + 1)).filter (· ∈ gnUnique inds)
        = (List.range (gnMaxInd inds + 1)).filter (· ∈ inds)
    refine List.filter_congr ?_
    intro x _
    refine decide_eq_decide.mpr ?_
    constructor
    · intro hmem
      exact of_decide_eq_true (List.mem_filter.mp hmem).2
    · exact mem_gnUnique
  simp only [gnResultList]
  rw [filterMap_ite_mem, hfilter]

/-- Per-position contents of the reassembled tuple: position `j` receives the
draw for its own batch index. -/
theorem gnParts_getElem (sample : Tensor → Nat → Tensor) (latent : Tensor)
    (seed : Nat) (inds : List Nat) (j : Nat) (hj : j < inds.length) :
    (gnParts sample latent seed inds)[j]?
      = some (gnDraw sample latent seed (inds.getD j 0)) := by
  have hgd : inds.getD j 0 = inds[j] := by
    rw [List.getD_eq_getElem?_getD, List.getElem?_eq_getElem hj]
    rfl
  have hmem : inds[j] ∈ inds := List.getElem_mem hj
  have hmemu : inds[j] ∈ gnUnique inds := mem_gnUnique hmem
  simp only [gnParts, List.map_map]
  rw [List.getElem?_map, List.getElem?_eq_getElem hj, hgd]
  simp only [Option.map_some', Function.comp_apply]
  rw [gnResultList_eq_map, List.getD_eq_getElem?_getD, List.getElem?_map,
    List.getElem?_indexOf hmemu]
  rfl

theorem setKwarg_self {V : Type} (kw : Kwargs V) (k : String) (v : V) :
    setKwarg kw k v k = some v := by
  simp [setKwarg]

theorem setKwarg_ne {V : Type} (kw : Kwargs V) (k x : String) (v : V) (h : x ≠ k) :
    setKwarg kw k v x = kw x := by
  simp [setKwarg, h]

theorem overrideStep_ne {V : Type} (params : List String) (cfg : Kwargs V)
    (acc : Kwargs V) (k x : String) (h : x ≠ k) :
    overrideStep params cfg acc k x = acc x := by
  unfold overrideStep
  cases cfg k with
  | none => rfl
  | some v =>
      show (if k ∈ params then setKwarg acc k v else acc) x = acc x
      by_cases hk : k ∈ params
      · rw [if_pos hk]
        exact setKwarg_ne acc k x v h
      · rw [if_neg hk]

/-- Keys outside the processed override list keep their incoming binding. -/
theorem foldl_overrideStep_not_mem {V : Type} (params : List String) (cfg : Kwargs V)
    (ks : List String) (kw : Kwargs V) (x : String) (h : x ∉ ks) :
    (ks.foldl (overrideStep params cfg) kw) x = kw x := by
  induction ks generalizing kw with
  | nil => rfl
  | cons a ks ih =>
      have hxa : x ≠ a := fun hc => h (hc ▸ List.mem_cons_self a ks)
      have hx : x ∉ ks := fun hc => h (List.mem_cons_of_mem a hc)
      rw [List.foldl_cons, ih _ hx, overrideStep_ne _ _ _ _ _ hxa]

/-- A processed key with a configured value ends bound to that value exactly
when the step function declares it, else keeps its incoming binding. -/
theorem foldl_overrideStep_mem {V : Type} (params : List String) (cfg : Kwargs V)
    (ks : List String) (kw : Kwargs V) (k : String) (v : V)
    (hnd : ks.Nodup) (hk : k ∈ ks) (hv : cfg k = some v) :
    (ks.foldl (overrideStep params cfg) kw) k
      = if k ∈ params then some v else kw k := by
  induction ks generalizing kw with
  | nil => cases hk
  | cons a ks ih =>
      rcases List.nodup_cons.mp hnd with ⟨ha, hnd'⟩
      rw [List.foldl_cons]
      rcases List.mem_cons.mp hk with rfl | hk'
      · rw [foldl_overrideStep_not_mem _ _ _ _ _ ha]
        unfold overrideStep
        rw [hv]
        show (if k ∈ params then setKwarg kw k v else kw) k
          = if k ∈ params then some v else kw k
        by_cases hp : k ∈ params
        · rw [if_pos hp, if_pos hp]
          exact setKwarg_self kw k v
        · rw [if_neg hp, if_neg hp]
      · have hka : k ≠ a := fun hc => ha (hc ▸ hk')
        rw [ih _ hnd' hk', overrideStep_ne _ _ _ _ _ hka]

/-- C1: the claim states the normalization flags of `SonarCompositeNoiseNode`
are not interchanged; the code in fact swaps them.  At the failing input
(`normalize_dst = "forced"`, `normalize_src = "disabled"`) the built
`CompositeNoise` item receives `normalize_dst = some false` and
`normalize_src = some true`, i.e. each input landed on the *other* flag. -/
theorem composite_normalize_flags_swapped :
    (sonarCompositeNoiseGoArgs 0 1 "disabled" "forced" "default" 2).normalize_dst
        = some false
      ∧ (sonarCompositeNoiseGoArgs 0 1 "disabled" "forced" "default" 2).normalize_src
        = some true := by
  constructor <;> rfl

/-- C2 counterexample: with `factor = 0` but `rescale = 4` on an input chain
with factors `[1, 1]`, the returned chain has factors `[2, 2]`, so it is not
unchanged from the input chain. -/
theorem factor_zero_rescale_changes_chain :
    sonarCustomNoiseGo 0 4 (some [⟨1, 0⟩, ⟨1, 1⟩]) (fun q => ⟨q, 7⟩)
      ≠ [⟨1, 0⟩, ⟨1, 1⟩] := by
  simp [sonarCustomNoiseGo, rescaled, chainFactorSum, chainClone, NoiseItem.mk.injEq]
  norm_num

/-- C2 (amended): for any noise-composition node invoked with `factor = 0`,
no item is appended: the returned chain is the input chain when
`rescale = 0`, and exactly the rescaled input chain (same items, factors
proportionally rebalanced) when `rescale ≠ 0`. -/
theorem factor_zero_appends_nothing (rescale : ℚ) (c : CustomNoiseChain)
    (mkItem : ℚ → NoiseItem) :
    sonarCustomNoiseGo 0 rescale (some c) mkItem
      = if rescale = 0 then c else rescaled c rescale := by
  simp [sonarCustomNoiseGo, chainClone]

/-- C8 counterexample: with the `restart` plugin available but not exposing
the `RestartSampler` wrapper type, `RestartSamplerCustomNoise` is absent from
the registration table, refuting "present iff the sibling plugin is
available". -/
theorem restart_wrapper_absent_despite_plugin :
    "RestartSamplerCustomNoise" ∉ nodeClassMappings false true false := by
  decide

/-- C9: with a chain input connected, `SonarCustomNoiseNodeBase.go` works on
a clone: the connected chain object in the store is never mutated, so its
contents after the call equal its contents before the call, for every factor
and rescale value. -/
theorem chain_input_not_mutated (heap : ChainHeap) (r : Nat) (factor rescale : ℚ)
    (mkItem : ℚ → NoiseItem) (h : r < heap.length) :
    ((sonarCustomNoiseGoHeap heap (some r) factor rescale mkItem).1)[r]? = heap[r]? := by
  have hne : heap.length ≠ r := Nat.ne_of_gt h
  have happ : ∀ c : CustomNoiseChain, (heap ++ [c])[r]? = heap[r]? := fun c =>
    List.getElem?_append_left h
  have hset : ∀ c y : CustomNoiseChain,
      ((heap ++ [c]).set heap.length y)[r]? = heap[r]? := by
    intro c y
    rw [List.getElem?_set_ne hne, happ]
  have hlt1 : ∀ c : CustomNoiseChain, r < (heap ++ [c]).length := by
    intro c
    simp only [List.length_append, List.length_singleton]
    exact Nat.lt_succ_of_lt h
  have hlt2 : ∀ (c y : CustomNoiseChain), r < ((heap ++ [c]).set heap.length y).length := by
    intro c y
    rw [List.length_set]
    exact hlt1 c
  simp only [sonarCustomNoiseGoHeap]
  rcases eq_or_ne rescale 0 with hr | hr <;> rcases eq_or_ne factor 0 with hf | hf
  · simp only [if_pos hr, if_neg (not_not_intro hf)]
    exact happ _
  · simp only [if_pos hr, if_pos hf]
    exact hset _ _
  · simp only [if_neg hr, if_neg (not_not_intro hf)]
    exact (List.getElem?_append_left (hlt1 _)).trans (happ _)
  · simp only [if_neg hr, if_pos hf]
    exact (List.getElem?_append_left (hlt2 _ _)).trans (hset _ _)

/-- C9 witness: the non-mutation theorem applied at a concrete one-chain
store. -/
theorem chain_input_not_mutated_witness :
    0 < ([[(⟨1, 0⟩ : NoiseItem)]] : ChainHeap).length
      ∧ ((sonarCustomNoiseGoHeap [[(⟨1, 0⟩ : NoiseItem)]] (some 0) 1 0
            (fun q => ⟨q, 3⟩)).1)[0]?
        = ([[(⟨1, 0⟩ : NoiseItem)]] : ChainHeap)[0]? :=
  ⟨by decide,
   chain_input_not_mutated [[(⟨1, 0⟩ : NoiseItem)]] 0 1 0 (fun q => ⟨q, 3⟩)
     (by decide)⟩

/-- C5: `NoisyLatentLikeNode.go` restores the process-wide tensor RNG state
observed before the call, for every `repeat_batch` value and also when noise
generation inside the call fails. -/
theorem noisy_latent_like_rng_restored {σ Noise : Type}
    (sigmasOpt : Option (List ℚ)) (modelConnected : Bool) (sigmaScale : List ℚ → ℚ)
    (multiplier : ℚ) (seed repeatBatch : Nat) (rng : σ) (manualSeed : Nat → σ)
    (draw : SigmaInfo → σ → Option (Noise × σ)) :
    (noisyLatentLikeGo sigmasOpt modelConnected sigmaScale multiplier seed
        repeatBatch rng manualSeed draw).rng = rng := by
  simp only [noisyLatentLikeGo]
  split
  · rfl
  · split <;> rfl

/-- C6 counterexample: with a zero-length sigmas tensor connected and no
model, `NoisyLatentLikeNode.go` does not raise the invalid-configuration
error (the guard requires `len(sigmas) > 0`), refuting the claim's "raises
whenever sigmas are connected without a model". -/
theorem sigmas_connected_no_model_no_error :
    (@noisyLatentLikeGo Nat Unit (some []) false (fun _ => 1) 1 0 1 0
        (fun s => s) (fun _ s => some ((), s))).result
      ≠ Except.error NLLErr.invalidConfig := by
  have hres : (@noisyLatentLikeGo Nat Unit (some []) false
      (fun _ => 1) 1 0 1 0 (fun s => s) (fun _ s => some ((), s))).result
      = Except.ok ([()], 1, ⟨none, none, none, none⟩) := rfl
  rw [hres]
  intro hcontra
  exact Except.noConfusion hcontra

/-- C6 (amended): `NoisyLatentLikeNode.go` raises the invalid-configuration
error exactly when a sigmas input holding at least one sigma is connected and
no model is connected. -/
theorem invalid_config_error_iff {σ Noise : Type}
    (sigmasOpt : Option (List ℚ)) (modelConnected : Bool) (sigmaScale : List ℚ → ℚ)
    (multiplier : ℚ) (seed repeatBatch : Nat) (rng : σ) (manualSeed : Nat → σ)
    (draw : SigmaInfo → σ → Option (Noise × σ)) :
    ((noisyLatentLikeGo sigmasOpt modelConnected sigmaScale multiplier seed
          repeatBatch rng manualSeed draw).result
        = Except.error NLLErr.invalidConfig)
      ↔ (∃ s, sigmasOpt = some s ∧ 0 < s.length) ∧ modelConnected = false := by
  simp only [noisyLatentLikeGo]
  split
  · rename_i hcond
    simp only [Except.error.injEq, true_iff, eq_self_iff_true]
    cases sigmasOpt with
    | none => simp at hcond
    | some s =>
        simp only [Bool.and_eq_true, Bool.not_eq_true', decide_eq_true_eq] at hcond
        exact ⟨⟨s, rfl, hcond.1⟩, hcond.2⟩
  · rename_i hcond
    constructor
    · intro hres
      exfalso
      revert hres
      split
      · intro hres; exact Except.noConfusion hres
      · intro hres
        have := Except.error.inj hres
        exact NLLErr.noConfusion this
    · rintro ⟨⟨s, hs, hlen⟩, hmodel⟩
      exfalso
      apply hcond
      subst hs
      subst hmodel
      simp [hlen]

/-- C10: with a connected sigmas tensor of length zero and no requirement on
the model input, `NoisyLatentLikeNode.go` behaves exactly as if no sigmas
were connected (same multiplier, same absent sigma bounds, same result and
RNG state), and never raises the invalid-configuration error. -/
theorem zero_length_sigmas_like_none {σ Noise : Type}
    (modelConnected : Bool) (sigmaScale : List ℚ → ℚ) (multiplier : ℚ)
    (seed repeatBatch : Nat) (rng : σ) (manualSeed : Nat → σ)
    (draw : SigmaInfo → σ → Option (Noise × σ)) :
    noisyLatentLikeGo (some ([] : List ℚ)) modelConnected sigmaScale multiplier
        seed repeatBatch rng manualSeed draw
      = noisyLatentLikeGo none modelConnected sigmaScale multiplier seed
        repeatBatch rng manualSeed draw
    ∧ (noisyLatentLikeGo (some ([] : List ℚ)) modelConnected sigmaScale multiplier
          seed repeatBatch rng manualSeed draw).result
      ≠ Except.error NLLErr.invalidConfig := by
  constructor
  · rfl
  · simp only [noisyLatentLikeGo]
    split
    · rename_i hcond
      simp at hcond
    · split
      · intro hres; exact Except.noConfusion hres
      · intro hres
        exact NLLErr.noConfusion (Except.error.inj hres)

/-- C3: `CustomNOISE.generate_noise` with multiplier exactly `0` returns an
all-zero tensor matching the target latent's shape, dtype and layout on CPU,
performs no noise-sampling call, and still reseeds both the tensor RNG and
the general-purpose RNG from its seed before returning. -/
theorem multiplier_zero_short_circuit {σt σp : Type} (sample : Tensor → Nat → Tensor)
    (manualSeedT : Nat → σt) (seedP : Nat → σp) (latent : Tensor)
    (batchInds : Option (List Nat)) (seed : Nat) :
    (generateNoise sample manualSeedT seedP latent batchInds seed 0).output
        = Tensor.zeros latent.shape latent.dtype latent.layout Device.cpu
      ∧ (generateNoise sample manualSeedT seedP latent batchInds seed 0).output.data
        = List.replicate latent.shape.prod 0
      ∧ (generateNoise sample manualSeedT seedP latent batchInds seed 0).sampleCalls = 0
      ∧ (generateNoise sample manualSeedT seedP latent batchInds seed 0).state
        = { torch := manualSeedT seed, py := seedP seed } := by
  refine ⟨?_, ?_, ?_, ?_⟩ <;> simp [generateNoise, Tensor.zeros]

/-- C4: with batch-index metadata present and a non-zero multiplier,
`CustomNOISE.generate_noise` performs one noise draw for every index from `0`
to the maximum present index; output position `j` receives the sample drawn
with seed `seed + inds[j]` against the reference example `inds[j] mod
batch-size`, so any two positions sharing a batch index receive identical
noise. -/
theorem batch_index_metadata_noise {σt σp : Type} (sample : Tensor → Nat → Tensor)
    (manualSeedT : Nat → σt) (seedP : Nat → σp) (latent : Tensor) (inds : List Nat)
    (seed : Nat) (multiplier : ℚ) (j : Nat)
    (hm : multiplier ≠ 0) (hj : j < inds.length) :
    (generateNoise sample manualSeedT seedP latent (some inds) seed multiplier).sampleCalls
        = gnMaxInd inds + 1
      ∧ (generateNoise sample manualSeedT seedP latent (some inds) seed multiplier).parts[j]?
        = some (sample (latent.selectBatch (inds.getD j 0 % gnBatchSize latent))
            (seed + inds.getD j 0))
      ∧ ∀ j', j' < inds.length → inds.getD j' 0 = inds.getD j 0 →
          (generateNoise sample manualSeedT seedP latent (some inds) seed multiplier).parts[j']?
            = (generateNoise sample manualSeedT seedP latent (some inds) seed multiplier).parts[j]? := by
  have hgen : generateNoise sample manualSeedT seedP latent (some inds) seed multiplier
      = { output := Tensor.cat (gnParts sample latent seed inds)
          parts := gnParts sample latent seed inds
          sampleCalls := gnMaxInd inds + 1
          state := { torch := manualSeedT seed, py := seedP seed } } := by
    simp [generateNoise, hm]
  refine ⟨?_, ?_, ?_⟩
  · rw [hgen]
  · rw [hgen]
    show (gnParts sample latent seed inds)[j]? = _
    rw [gnParts_getElem sample latent seed inds j hj]
    rfl
  · intro j' hj' heq
    rw [hgen]
    show (gnParts sample latent seed inds)[j']? = (gnParts sample latent seed inds)[j]?
    rw [gnParts_getElem sample latent seed inds j' hj',
      gnParts_getElem sample latent seed inds j hj, heq]

/-- C4 witness: the theorem evaluated on the spec's `[0, 0, 1]` batch-index
example against a two-example reference latent. -/
theorem batch_index_metadata_noise_witness :
    (1 : ℚ) ≠ 0 ∧ 0 < ([0, 0, 1] : List Nat).length
      ∧ (generateNoise gwSample (fun s => s) (fun s => s) gwLatent
            (some [0, 0, 1]) 3 1).parts[0]?
        = some (gwSample
            (gwLatent.selectBatch (([0, 0, 1] : List Nat).getD 0 0 % gnBatchSize gwLatent))
            (3 + ([0, 0, 1] : List Nat).getD 0 0)) :=
  ⟨one_ne_zero, by decide,
    (batch_index_metadata_noise gwSample (fun s => s) (fun s => s) gwLatent
      [0, 0, 1] 3 1 0 one_ne_zero (by decide)).2.1⟩

/-- C7: the override wrapper assigns each of `s_noise`, `eta`, `s_churn`,
`r`, `solver_type` exactly when the wrapped step function declares that
parameter (undeclared ones keep their incoming binding, with no error path),
passing the configured value through verbatim, and substitutes the
noise-sampler callback exactly when the wrapped function accepts one. -/
theorem config_override_respects_params {V : Type} (params : List String)
    (cfg : Kwargs V) (noiseSampler : V) (kwargs : Kwargs V) (k : String) (v : V)
    (hk : k ∈ KWARG_OVERRIDES) (hv : cfg k = some v) :
    (samplerFunctionKwargs params cfg noiseSampler kwargs k
        = if k ∈ params then some v else kwargs k)
      ∧ (samplerFunctionKwargs params cfg noiseSampler kwargs "noise_sampler"
        = if "noise_sampler" ∈ params then some noiseSampler
          else kwargs "noise_sampler") := by
  have hnd : KWARG_OVERRIDES.Nodup := by decide
  have hns : "noise_sampler" ∉ KWARG_OVERRIDES := by decide
  have hne : k ≠ "noise_sampler" := fun hc => hns (hc ▸ hk)
  constructor
  · simp only [samplerFunctionKwargs]
    rw [foldl_overrideStep_mem params cfg _ _ k v hnd hk hv]
    by_cases hp : "noise_sampler" ∈ params
    · rw [if_pos hp, setKwarg_ne _ _ _ _ hne]
    · rw [if_neg hp]
  · simp only [samplerFunctionKwargs]
    rw [foldl_overrideStep_not_mem params cfg _ _ _ hns]
    by_cases hp : "noise_sampler" ∈ params
    · rw [if_pos hp, if_pos hp, setKwarg_self]
    · rw [if_neg hp, if_neg hp]

/-- C7 witness: the `r` override against a step function that declares
`s_noise` and `noise_sampler` but not `r`. -/
theorem config_override_respects_params_witness :
    "r" ∈ KWARG_OVERRIDES ∧ (fun _ => (some 5 : Option Nat)) "r" = some 5
      ∧ (samplerFunctionKwargs ["s_noise", "noise_sampler"] (fun _ => some 5) 9
            (fun _ => none) "r"
          = if "r" ∈ ["s_noise", "noise_sampler"] then some 5 else none)
      ∧ (samplerFunctionKwargs ["s_noise", "noise_sampler"] (fun _ => some 5) 9
            (fun _ => none) "noise_sampler"
          = if "noise_sampler" ∈ ["s_noise", "noise_sampler"] then some 9 else none) :=
  ⟨by decide, rfl,
    config_override_respects_params ["s_noise", "noise_sampler"] (fun _ => some 5) 9
      (fun _ => none) "r" 5 (by decide) rfl⟩

/-- C8 (amended): `SonarBlendFilterNoise` is registered iff `bleh` is
available and `KRestartSamplerCustomNoise` iff `restart` is available, while
`RestartSamplerCustomNoise` is registered iff `restart` is available *and*
exposes the `RestartSampler` wrapper type. -/
theorem conditional_node_registration (blehAvail restartAvail restartHasWrapper : Bool) :
    ("SonarBlendFilterNoise" ∈ nodeClassMappings blehAvail restartAvail restartHasWrapper
        ↔ blehAvail = true)
      ∧ ("KRestartSamplerCustomNoise" ∈ nodeClassMappings blehAvail restartAvail restartHasWrapper
        ↔ restartAvail = true)
      ∧ ("RestartSamplerCustomNoise" ∈ nodeClassMappings blehAvail restartAvail restartHasWrapper
        ↔ restartAvail = true ∧ restartHasWrapper = true) := by
  cases blehAvail <;> cases restartAvail <;> cases restartHasWrapper <;> decide
